import Mathlib

/-!
Verification of the hasher layer of `tiny-multihash` (`src/hasher_impl.rs`).

The file shallowly embeds the four adapter families of the source:

* `MultihashDigest` — the newtype over an `N`-byte array generated by the
  `derive_digest!` macro, together with its two `From` conversions;
* `IdentityHasher` — the identity adapter: a fixed-capacity buffer with a
  write cursor (`update` writes `input` at `bytes[i..i+len]`; the Rust slice
  indexing panics when the range exceeds the buffer, which the embedding
  renders as `Option.none`);
* `ShaHasher` — the `derive_hasher_sha!` family (SHA-1/2/3, Keccak);
* `Blake2Hasher` — the `derive_hasher_blake!` family (configurable length);
* `StrobeHasher` — the duplex ("strobe") adapter with its `initialized` flag.

The underlying primitive engines (the `sha*`/`blake2*_simd`/`strobe_rs`
crates) are external collaborators; the spec treats each as a black box with
a known update/output-extraction contract.  They are modelled accordingly:
a Merkle–Damgård primitive's state is the byte stream absorbed so far, the
duplex primitive's state is its transcript of absorb operations (where an
absorb with `more = true` continues — concatenates onto — the previous
operation, the documented STROBE streaming semantics), and output extraction
is an uninterpreted per-byte function taken as a parameter.
-/

/-- Model of `GenericArray<u8, S>`: a byte list of length exactly `N`. -/
def GArray (N : Nat) := { l : List Nat // l.length = N }

/-- Model of the newtype generated by `derive_digest!` (`IdentityDigest`,
`Sha1Digest`, `Sha2Digest`, `Sha3Digest`, `KeccakDigest`, `Blake2bDigest`,
`Blake2sDigest`, `StrobeDigest`, `UnknownDigest`): a struct wrapping a
`GenericArray<u8, S>`. -/
structure MultihashDigest (N : Nat) where
  arr : GArray N

/-- Model of `impl From<GenericArray<u8, S>> for $name<S>` — wraps the array. -/
def MultihashDigest.ofArray {N : Nat} (a : GArray N) : MultihashDigest N :=
  ⟨a⟩

/-- Model of `impl From<$name<S>> for GenericArray<u8, S>` — unwraps the array. -/
def MultihashDigest.toArray {N : Nat} (d : MultihashDigest N) : GArray N :=
  d.arr

/-- Model of `AsRef<[u8]>`: the raw bytes of the digest. -/
def MultihashDigest.asRef {N : Nat} (d : MultihashDigest N) : List Nat :=
  d.arr.val

/-- Model of the Rust slice assignment
`buf[start..start+input.len()].copy_from_slice(input)`:
the bytes of `buf` before `start`, then `input`, then the bytes of `buf`
from `start + input.length` on. -/
def copySlice (buf : List Nat) (start : Nat) (input : List Nat) : List Nat :=
  buf.take start ++ input ++ buf.drop (start + input.length)

/-- Model of `IdentityHasher<S>`: the destination buffer (a
`GenericArray<u8, S>`, always of length `N` in reachable states) and the
write cursor `i`. -/
structure IdentityHasher (N : Nat) where
  bytes : List Nat
  i : Nat
deriving DecidableEq, Repr

/-- Model of `IdentityHasher::default()` (`#[derive(Default)]`): an all-zero
buffer and cursor `0`. -/
def IdentityHasher.defaultState (N : Nat) : IdentityHasher N :=
  ⟨List.replicate N 0, 0⟩

/-- Model of `IdentityHasher::update`.  The source computes
`start = self.i`, `end = start + input.len()` and runs
`self.bytes[start..end].copy_from_slice(input)`.  Rust slice indexing is
bounds-checked: when `end` exceeds the buffer length it panics
(index out of bounds) before writing anything; the panic is rendered as
`none`.  On success the cursor advances to `end`. -/
def IdentityHasher.update {N : Nat} (s : IdentityHasher N) (input : List Nat) :
    Option (IdentityHasher N) :=
  if s.i + input.length ≤ s.bytes.length then
    some ⟨copySlice s.bytes s.i input, s.i + input.length⟩
  else
    none

/-- Model of `IdentityHasher::finalize`: returns (a clone of) the buffer. -/
def IdentityHasher.finalize {N : Nat} (s : IdentityHasher N) : List Nat :=
  s.bytes

/-- Model of `IdentityHasher::reset`: `self.bytes = Default::default()`
(the all-zero array) and `self.i = 0`. -/
def IdentityHasher.reset {N : Nat} (_ : IdentityHasher N) : IdentityHasher N :=
  ⟨List.replicate N 0, 0⟩

/-- Fold `update` over a list of chunks, propagating the panic (`none`). -/
def IdentityHasher.updateAll {N : Nat} (s : IdentityHasher N) :
    List (List Nat) → Option (IdentityHasher N)
  | [] => some s
  | c :: cs => (s.update c).bind (fun t => t.updateAll cs)

/-- Model of the `derive_hasher_sha!` family (`Sha1`, `Sha2_256`, `Sha2_512`,
`Sha3_224/256/384/512`, `Keccak224/256/384/512`).  Modelled from the spec:
the wrapped primitive (an external `digest`-crate engine, out of scope of
the source) is a black box whose state is determined by the byte stream
absorbed so far, so the state is that stream. -/
structure ShaHasher where
  absorbed : List Nat
deriving DecidableEq, Repr

/-- Model of `#[derive(Default)]` on the sha wrappers: the primitive in its
algorithm-defined initial state, i.e. nothing absorbed. -/
def ShaHasher.emptyState : ShaHasher :=
  ⟨[]⟩

/-- Model of sha `update`: forwards the bytes verbatim to the primitive. -/
def ShaHasher.update (s : ShaHasher) (input : List Nat) : ShaHasher :=
  ⟨s.absorbed ++ input⟩

/-- Model of sha `finalize`: `self.state.clone().finalize()` copied into an
`N`-byte `GenericArray`.  The primitive's fixed-length output is an
uninterpreted per-byte function `extract` of the absorbed stream. -/
def ShaHasher.finalize (extract : List Nat → Nat → Nat) (N : Nat)
    (s : ShaHasher) : List Nat :=
  (List.range N).map (extract s.absorbed)

/-- Model of sha `reset`: `self.state.reset()` — the primitive contract
restores its initial state, discarding everything absorbed. -/
def ShaHasher.reset (_ : ShaHasher) : ShaHasher :=
  ⟨[]⟩

/-- Model of the `derive_hasher_blake!` family (`Blake2bHasher<S>`,
`Blake2sHasher<S>`).  Modelled from the spec: the primitive (external
`blake2*_simd` crate) is configured with `hash_length(S::to_usize())` at
construction and is otherwise a black box whose state is the absorbed byte
stream; the configured length is the type parameter `N`. -/
structure Blake2Hasher (N : Nat) where
  absorbed : List Nat
deriving DecidableEq, Repr

/-- Model of `Blake2*Hasher::default()`: a fresh primitive configured with
output length `N`, nothing absorbed. -/
def Blake2Hasher.defaultState (N : Nat) : Blake2Hasher N :=
  ⟨[]⟩

/-- Model of blake2 `update`: forwards the bytes to the primitive. -/
def Blake2Hasher.update {N : Nat} (s : Blake2Hasher N) (input : List Nat) :
    Blake2Hasher N :=
  ⟨s.absorbed ++ input⟩

/-- Model of blake2 `finalize`: reads the configured-length output of the
primitive without mutating it; the output is an uninterpreted per-byte
function of the configured length and the absorbed stream. -/
def Blake2Hasher.finalize {N : Nat} (extract : Nat → List Nat → Nat → Nat)
    (s : Blake2Hasher N) : List Nat :=
  (List.range N).map (extract N s.absorbed)

/-- Model of blake2 `reset`: `let Self { state, .. } = Self::default();
self.state = state;` — a fresh primitive with the same configured length. -/
def Blake2Hasher.reset {N : Nat} (_ : Blake2Hasher N) : Blake2Hasher N :=
  ⟨[]⟩

/-- Modelled from the spec: the duplex-sponge primitive (`strobe_rs::Strobe`,
an external collaborator).  Its observable state is the transcript of absorb
(`AD`) operations performed, each carrying its accumulated data.  The domain
label `b"StrobeHash"` and security parameter `B128` are fixed constants of
the adapter and are left implicit. -/
structure StrobePrim where
  ops : List (List Nat)
deriving DecidableEq, Repr

/-- Model of `Strobe::new(b"StrobeHash", SecParam::B128)`: empty transcript. -/
def StrobePrim.new : StrobePrim :=
  ⟨[]⟩

/-- Model of `Strobe::ad(data, more)` under the documented STROBE streaming
semantics: with `more = false` a new absorb operation begins; with
`more = true` the call continues the previous operation, so its data is
appended to that operation's data (a split absorb is equivalent to one
absorb of the concatenation). -/
def StrobePrim.ad (p : StrobePrim) (data : List Nat) (more : Bool) :
    StrobePrim :=
  if more then
    ⟨p.ops.dropLast ++ [(p.ops.getLast?.getD []) ++ data]⟩
  else
    ⟨p.ops ++ [data]⟩

/-- Model of `StrobeHasher<S>`: the sponge plus the `initialized` flag. -/
structure StrobeHasher where
  strobe : StrobePrim
  initialized : Bool
deriving DecidableEq, Repr

/-- Model of `StrobeHasher::default()`: fresh sponge, flag `false`. -/
def StrobeHasher.defaultState : StrobeHasher :=
  ⟨StrobePrim.new, false⟩

/-- Model of `StrobeHasher::update`: `self.strobe.ad(input, self.initialized);
self.initialized = true;`. -/
def StrobeHasher.update (h : StrobeHasher) (input : List Nat) : StrobeHasher :=
  ⟨h.strobe.ad input h.initialized, true⟩

/-- Model of `StrobeHasher::finalize`: clones the sponge and squeezes an
`N`-byte buffer via `prf`; the squeezed bytes are an uninterpreted per-byte
function of the transcript. -/
def StrobeHasher.finalize (extract : List (List Nat) → Nat → Nat) (N : Nat)
    (h : StrobeHasher) : List Nat :=
  (List.range N).map (extract h.strobe.ops)

/-- Model of `StrobeHasher::reset`: takes the `strobe` field of a fresh
`Self::default()` and sets `initialized` back to `false`. -/
def StrobeHasher.reset (_ : StrobeHasher) : StrobeHasher :=
  ⟨StrobePrim.new, false⟩

/-- An operation of the `Hasher` contract, for stating trace properties:
either an `update` with a chunk of bytes, or a `finalize`. -/
inductive HOp where
  | upd : List Nat → HOp
  | fin : HOp
deriving DecidableEq, Repr

/-- Whether a trace operation is an `update`. -/
def HOp.isUpd : HOp → Bool
  | upd _ => true
  | fin => false

/-- A hasher adapter packaged for trace statements: its state transformer
for `update` and its digest extraction for `finalize` (which, mirroring the
Rust signature `fn finalize(&self) -> Self::Digest`, reads the state without
returning a new one). -/
structure HasherModel (σ : Type) where
  update : σ → List Nat → σ
  finalize : σ → List Nat

/-- Run a trace of operations from a state, collecting finalize outputs. -/
def runOps {σ : Type} (M : HasherModel σ) : σ → List HOp → σ × List (List Nat)
  | s, [] => (s, [])
  | s, HOp.upd b :: rest => runOps M (M.update s b) rest
  | s, HOp.fin :: rest =>
    let r := runOps M s rest
    (r.1, M.finalize s :: r.2)

/-- The sha family as a `HasherModel`. -/
def shaModel (extract : List Nat → Nat → Nat) (N : Nat) :
    HasherModel ShaHasher :=
  ⟨ShaHasher.update, ShaHasher.finalize extract N⟩

/-- The blake2 family as a `HasherModel`. -/
def blake2Model (extract : Nat → List Nat → Nat → Nat) (N : Nat) :
    HasherModel (Blake2Hasher N) :=
  ⟨Blake2Hasher.update, Blake2Hasher.finalize extract⟩

/-- The strobe adapter as a `HasherModel`. -/
def strobeModel (extract : List (List Nat) → Nat → Nat) (N : Nat) :
    HasherModel StrobeHasher :=
  ⟨StrobeHasher.update, StrobeHasher.finalize extract N⟩

/-- The identity adapter as a `HasherModel` over `Option` states: the `none`
state models a panicked instance (an overflowing `update` propagates it);
`finalize` of a live state returns its buffer. -/
def identityModel (N : Nat) : HasherModel (Option (IdentityHasher N)) :=
  ⟨fun s input => s.bind (fun t => t.update input),
   fun s => (s.map IdentityHasher.finalize).getD []⟩

/-- A successful in-bounds slice write preserves the buffer length. -/
theorem copySlice_length (buf : List Nat) (start : Nat) (input : List Nat)
    (h : start + input.length ≤ buf.length) :
    (copySlice buf start input).length = buf.length := by
  simp [copySlice]
  omega

/-- Writing the empty slice changes nothing. -/
theorem copySlice_nil (buf : List Nat) (start : Nat) :
    copySlice buf start [] = buf := by
  simp [copySlice]

/-- Two consecutive slice writes equal one write of the concatenation. -/
theorem copySlice_copySlice (buf : List Nat) (start : Nat) (a b : List Nat)
    (h : start + a.length ≤ buf.length) :
    copySlice (copySlice buf start a) (start + a.length) b
      = copySlice buf start (a ++ b) := by
  have hta : (buf.take start ++ a).length = start + a.length := by
    simp
    omega
  unfold copySlice
  rw [List.take_left' hta]
  rw [show start + a.length + b.length = (buf.take start ++ a).length + b.length by
        rw [hta]]
  rw [List.drop_append]
  rw [List.drop_drop]
  simp [List.append_assoc, Nat.add_assoc]

/-- Two consecutive identity updates behave exactly like one update with the
concatenated input: both succeed on the same states (the panic cases agree)
and produce the same buffer and cursor. -/
theorem IdentityHasher.update_then_update_identity {N : Nat} (s : IdentityHasher N)
    (a b : List Nat) :
    (s.update a).bind (fun t => t.update b) = s.update (a ++ b) := by
  unfold IdentityHasher.update
  by_cases h1 : s.i + a.length ≤ s.bytes.length
  · rw [if_pos h1]
    simp only [Option.some_bind]
    have hlen : (copySlice s.bytes s.i a).length = s.bytes.length :=
      copySlice_length s.bytes s.i a h1
    by_cases h2 : s.i + (a ++ b).length ≤ s.bytes.length
    · rw [if_pos h2]
      rw [if_pos (by simp at h2 ⊢; omega : s.i + a.length + b.length ≤
            (copySlice s.bytes s.i a).length)]
      rw [copySlice_copySlice s.bytes s.i a b h1]
      simp
      omega
    · rw [if_neg h2]
      rw [if_neg (by simp at h2 ⊢; omega : ¬ s.i + a.length + b.length ≤
            (copySlice s.bytes s.i a).length)]
  · rw [if_neg h1]
    rw [if_neg (by simp at h1 ⊢; omega : ¬ s.i + (a ++ b).length ≤ s.bytes.length)]
    simp

/-- Update composition lifted to the `Option` states of `identityModel`. -/
theorem identityModel_update_update {N : Nat}
    (s : Option (IdentityHasher N)) (a b : List Nat) :
    (identityModel N).update ((identityModel N).update s a) b
      = (identityModel N).update s (a ++ b) := by
  cases s with
  | none => rfl
  | some t =>
    simp only [identityModel, Option.some_bind]
    exact IdentityHasher.update_then_update_identity t a b

/-- Two consecutive strobe absorbs, the second a continuation, equal one
absorb of the concatenation (the STROBE streaming law, at the transcript
level of the model). -/
theorem StrobePrim.ad_ad (p : StrobePrim) (a b : List Nat) (m : Bool) :
    (p.ad a m).ad b true = p.ad (a ++ b) m := by
  cases m with
  | false =>
    simp [StrobePrim.ad, List.dropLast_concat, List.getLast?_concat]
  | true =>
    simp [StrobePrim.ad, List.dropLast_concat, List.getLast?_concat,
      List.append_assoc]

/-- Two consecutive strobe updates equal one update with the concatenation. -/
theorem StrobeHasher.update_then_update_strobe (h : StrobeHasher) (a b : List Nat) :
    (h.update a).update b = h.update (a ++ b) := by
  unfold StrobeHasher.update
  simp [StrobePrim.ad_ad]

/-- Two consecutive sha updates equal one update with the concatenation. -/
theorem ShaHasher.update_then_update_sha (s : ShaHasher) (a b : List Nat) :
    (s.update a).update b = s.update (a ++ b) := by
  simp [ShaHasher.update]

/-- Two consecutive blake2 updates equal one update with the concatenation. -/
theorem Blake2Hasher.update_then_update_blake2 {N : Nat} (s : Blake2Hasher N)
    (a b : List Nat) :
    (s.update a).update b = s.update (a ++ b) := by
  simp [Blake2Hasher.update]

/-- For any state transformer satisfying the concatenation law, folding it
over a non-empty chunk list equals one call with the flattened input. -/
theorem foldl_update_flatten {σ : Type} (u : σ → List Nat → σ)
    (hcomp : ∀ s a b, u (u s a) b = u s (a ++ b)) :
    ∀ (cs : List (List Nat)) (c : List Nat) (s : σ),
      List.foldl u s (c :: cs) = u s (c :: cs).flatten := by
  intro cs
  induction cs with
  | nil => intro c s; simp
  | cons d ds ih =>
    intro c s
    have step : List.foldl u s (c :: d :: ds) = List.foldl u (u s c) (d :: ds) :=
      rfl
    rw [step, ih d (u s c), hcomp]
    simp [List.append_assoc]

/-- An in-bounds update of the canonical state `written ++ zeros` appends
the input to the written part, consumes that many zeros, and advances the
cursor. -/
theorem IdentityHasher.update_canonical {N : Nat} (pre c : List Nat)
    (h : pre.length + c.length ≤ N) :
    IdentityHasher.update
        (⟨pre ++ List.replicate (N - pre.length) 0, pre.length⟩ :
          IdentityHasher N) c
      = some ⟨(pre ++ c) ++ List.replicate (N - (pre.length + c.length)) 0,
          pre.length + c.length⟩ := by
  have hlen : (pre ++ List.replicate (N - pre.length) 0).length = N := by
    simp
    omega
  simp only [IdentityHasher.update]
  rw [hlen, if_pos h]
  unfold copySlice
  rw [List.take_left]
  rw [List.drop_append c.length]
  rw [List.drop_replicate]
  rw [Nat.sub_sub]

/-- Absorbing a chunk list from the canonical state `written ++ zeros`
succeeds whenever the total stays within capacity, appending the flattened
chunks to the written part. -/
theorem IdentityHasher.updateAll_spec {N : Nat} :
    ∀ (chunks : List (List Nat)) (pre : List Nat),
      pre.length + chunks.flatten.length ≤ N →
      IdentityHasher.updateAll
          (⟨pre ++ List.replicate (N - pre.length) 0, pre.length⟩ :
            IdentityHasher N) chunks
        = some ⟨(pre ++ chunks.flatten)
              ++ List.replicate (N - (pre.length + chunks.flatten.length)) 0,
            pre.length + chunks.flatten.length⟩ := by
  intro chunks
  induction chunks with
  | nil =>
    intro pre h
    simp [IdentityHasher.updateAll]
  | cons c cs ih =>
    intro pre h
    rw [List.flatten_cons] at h
    unfold IdentityHasher.updateAll
    rw [IdentityHasher.update_canonical pre c
          (by simp only [List.length_append] at h; omega)]
    rw [Option.some_bind]
    have key := ih (pre ++ c)
      (by simp only [List.length_append] at h ⊢; omega)
    simpa [List.append_assoc, Nat.add_assoc] using key

/-- A successful identity update preserves the buffer length. -/
theorem IdentityHasher.update_length {N : Nat} (s t : IdentityHasher N)
    (c : List Nat) (h : s.update c = some t) :
    t.bytes.length = s.bytes.length := by
  unfold IdentityHasher.update at h
  by_cases hg : s.i + c.length ≤ s.bytes.length
  · rw [if_pos hg] at h
    have ht := Option.some.inj h
    rw [← ht]
    exact copySlice_length s.bytes s.i c hg
  · rw [if_neg hg] at h
    cases h

/-- A successful chunked absorb preserves the buffer length. -/
theorem IdentityHasher.updateAll_length {N : Nat} :
    ∀ (chunks : List (List Nat)) (s t : IdentityHasher N),
      s.updateAll chunks = some t → t.bytes.length = s.bytes.length := by
  intro chunks
  induction chunks with
  | nil =>
    intro s t h
    cases Option.some.inj h
    rfl
  | cons c cs ih =>
    intro s t h
    unfold IdentityHasher.updateAll at h
    cases hu : s.update c with
    | none => rw [hu] at h; cases h
    | some u =>
      rw [hu, Option.some_bind] at h
      rw [ih u t h]
      exact IdentityHasher.update_length s u c hu

/-- Dropping the `finalize` operations from a trace does not change the
state it reaches: `finalize` never writes to the state. -/
theorem runOps_state_filter {σ : Type} (M : HasherModel σ) :
    ∀ (ops : List HOp) (s : σ),
      (runOps M s ops).1 = (runOps M s (ops.filter HOp.isUpd)).1 := by
  intro ops
  induction ops with
  | nil => intro s; rfl
  | cons o rest ih =>
    intro s
    cases o with
    | upd b => simp [runOps, List.filter_cons, HOp.isUpd, ih]
    | fin => simp [runOps, List.filter_cons, HOp.isUpd, ih]

/-- Two consecutive `finalize` calls in a trace return the same digest. -/
theorem runOps_fin_fin {σ : Type} (M : HasherModel σ) (s : σ)
    (ops : List HOp) :
    (runOps M s (HOp.fin :: HOp.fin :: ops)).2.take 2
      = [M.finalize s, M.finalize s] := by
  simp [runOps]

/-- C1: with capacity `N = 1` and a fresh identity hasher, an update of two
bytes has `i + bytes.length = 2 > 1 = N`; the source then slices
`self.bytes[0..2]` on a 1-byte array, which is a bounds-checked
index-out-of-bounds panic — modelled as `none` — and not the declared,
recoverable error value the claim requires.  This theorem evaluates the
embedded update at that failing input and confirms it takes the panic
branch (so no partial mutation survives, but the failure is a panic, not a
returned error). -/
theorem identity_update_overflow_panics :
    IdentityHasher.update (IdentityHasher.defaultState 1) [0, 0] = none := by
  rfl

/-- C2: for the identity adapter with capacity `N`, absorbing any chunk
sequence totalling `k ≤ N` bytes from the fresh state succeeds, and
`finalize` returns exactly the `k` written bytes in order followed by
`N - k` zero bytes. -/
theorem identity_finalize_roundtrip (N : Nat) (chunks : List (List Nat))
    (h : chunks.flatten.length ≤ N) :
    ∃ s, (IdentityHasher.defaultState N).updateAll chunks = some s ∧
      IdentityHasher.finalize s
        = chunks.flatten ++ List.replicate (N - chunks.flatten.length) 0 := by
  have key := IdentityHasher.updateAll_spec (N := N) chunks []
    (by simpa using h)
  refine ⟨_, key, ?_⟩
  simp [IdentityHasher.finalize]

/-- Witness for C2 at `N = 3`, chunks `[[1], [2]]`: the absorb succeeds and
finalize returns `[1, 2, 0]`. -/
theorem identity_finalize_roundtrip_witness :
    ∃ s, (IdentityHasher.defaultState 3).updateAll [[1], [2]] = some s ∧
      IdentityHasher.finalize s
        = [[1], [2]].flatten
            ++ List.replicate (3 - [[1], [2]].flatten.length) 0 :=
  identity_finalize_roundtrip 3 [[1], [2]] (by decide)

/-- C3: for every adapter family, absorbing an input as any non-empty
sequence of consecutive chunks yields exactly the same hasher state as
absorbing the flattened input in a single `update` call (for the identity
adapter, including agreement of the panic cases); consequently every
finalize result agrees with the single-call run. -/
theorem update_chunking_invariance (chunks : List (List Nat))
    (hne : chunks ≠ []) :
    (∀ (N : Nat) (s : IdentityHasher N),
        List.foldl (identityModel N).update (some s) chunks
          = s.update chunks.flatten)
    ∧ (∀ s : ShaHasher,
        List.foldl ShaHasher.update s chunks = s.update chunks.flatten)
    ∧ (∀ (N : Nat) (s : Blake2Hasher N),
        List.foldl Blake2Hasher.update s chunks = s.update chunks.flatten)
    ∧ (∀ s : StrobeHasher,
        List.foldl StrobeHasher.update s chunks = s.update chunks.flatten) := by
  obtain ⟨c, cs, rfl⟩ := List.exists_cons_of_ne_nil hne
  refine ⟨?_, ?_, ?_, ?_⟩
  · intro N s
    exact foldl_update_flatten (identityModel N).update
      identityModel_update_update cs c (some s)
  · intro s
    exact foldl_update_flatten ShaHasher.update ShaHasher.update_then_update_sha cs c s
  · intro N s
    exact foldl_update_flatten Blake2Hasher.update Blake2Hasher.update_then_update_blake2
      cs c s
  · intro s
    exact foldl_update_flatten StrobeHasher.update StrobeHasher.update_then_update_strobe
      cs c s

/-- Witness for C3 at chunks `[[1], [2]]` on the sha family. -/
theorem update_chunking_invariance_witness :
    List.foldl ShaHasher.update ShaHasher.emptyState [[1], [2]]
      = ShaHasher.update ShaHasher.emptyState [1, 2] :=
  (update_chunking_invariance [[1], [2]] (by decide)).2.1 ShaHasher.emptyState

/-- C4: for every adapter family, `finalize` reads the state without
mutating it (mirroring `fn finalize(&self)`, which clones the primitive
before extraction): deleting the `finalize` calls from a trace leaves the
reached state unchanged, and two consecutive `finalize` calls with no
intervening `update` return equal digests. -/
theorem finalize_preserves_state :
    (∀ (N : Nat) (s : Option (IdentityHasher N)) (ops : List HOp),
        (runOps (identityModel N) s ops).1
          = (runOps (identityModel N) s (ops.filter HOp.isUpd)).1
        ∧ (runOps (identityModel N) s (HOp.fin :: HOp.fin :: ops)).2.take 2
          = [(identityModel N).finalize s, (identityModel N).finalize s])
    ∧ (∀ (e : List Nat → Nat → Nat) (N : Nat) (s : ShaHasher)
        (ops : List HOp),
        (runOps (shaModel e N) s ops).1
          = (runOps (shaModel e N) s (ops.filter HOp.isUpd)).1
        ∧ (runOps (shaModel e N) s (HOp.fin :: HOp.fin :: ops)).2.take 2
          = [ShaHasher.finalize e N s, ShaHasher.finalize e N s])
    ∧ (∀ (e : Nat → List Nat → Nat → Nat) (N : Nat) (s : Blake2Hasher N)
        (ops : List HOp),
        (runOps (blake2Model e N) s ops).1
          = (runOps (blake2Model e N) s (ops.filter HOp.isUpd)).1
        ∧ (runOps (blake2Model e N) s (HOp.fin :: HOp.fin :: ops)).2.take 2
          = [Blake2Hasher.finalize e s, Blake2Hasher.finalize e s])
    ∧ (∀ (e : List (List Nat) → Nat → Nat) (N : Nat) (s : StrobeHasher)
        (ops : List HOp),
        (runOps (strobeModel e N) s ops).1
          = (runOps (strobeModel e N) s (ops.filter HOp.isUpd)).1
        ∧ (runOps (strobeModel e N) s (HOp.fin :: HOp.fin :: ops)).2.take 2
          = [StrobeHasher.finalize e N s, StrobeHasher.finalize e N s]) :=
  ⟨fun N s ops => ⟨runOps_state_filter (identityModel N) ops s,
      runOps_fin_fin (identityModel N) s ops⟩,
   fun e N s ops => ⟨runOps_state_filter (shaModel e N) ops s,
      runOps_fin_fin (shaModel e N) s ops⟩,
   fun e N s ops => ⟨runOps_state_filter (blake2Model e N) ops s,
      runOps_fin_fin (blake2Model e N) s ops⟩,
   fun e N s ops => ⟨runOps_state_filter (strobeModel e N) ops s,
      runOps_fin_fin (strobeModel e N) s ops⟩⟩

/-- C5: for every adapter family, `reset` rebuilds exactly the
just-constructed state, so any trace of operations run after a `reset`
produces the same states and digests as the same trace on a freshly
constructed instance with the same configuration. -/
theorem reset_equiv_fresh :
    (∀ (N : Nat) (s : IdentityHasher N) (ops : List HOp),
        runOps (identityModel N) (some s.reset) ops
          = runOps (identityModel N) (some (IdentityHasher.defaultState N))
              ops)
    ∧ (∀ (e : List Nat → Nat → Nat) (N : Nat) (s : ShaHasher)
        (ops : List HOp),
        runOps (shaModel e N) s.reset ops
          = runOps (shaModel e N) ShaHasher.emptyState ops)
    ∧ (∀ (e : Nat → List Nat → Nat → Nat) (N : Nat) (s : Blake2Hasher N)
        (ops : List HOp),
        runOps (blake2Model e N) s.reset ops
          = runOps (blake2Model e N) (Blake2Hasher.defaultState N) ops)
    ∧ (∀ (e : List (List Nat) → Nat → Nat) (N : Nat) (s : StrobeHasher)
        (ops : List HOp),
        runOps (strobeModel e N) s.reset ops
          = runOps (strobeModel e N) StrobeHasher.defaultState ops) :=
  ⟨fun _ _ _ => rfl, fun _ _ _ _ => rfl, fun _ _ _ _ => rfl,
   fun _ _ _ _ => rfl⟩

/-- C6: the strobe adapter's `initialized` flag is `false` at construction
and after `reset`; every `update` absorbs its bytes tagged with the current
value of the flag (so the first absorb after construction or reset is
framed with `more = false` and later absorbs with `more = true`), and after
any `update` the flag is `true` and stays `true` across any further
updates. -/
theorem strobe_initialized_flag_invariant :
    StrobeHasher.defaultState.initialized = false
    ∧ (∀ h : StrobeHasher, h.reset.initialized = false)
    ∧ (∀ (h : StrobeHasher) (input : List Nat),
        h.update input = ⟨h.strobe.ad input h.initialized, true⟩)
    ∧ (∀ (h : StrobeHasher) (input : List Nat) (chunks : List (List Nat)),
        (List.foldl StrobeHasher.update (h.update input) chunks).initialized
          = true) := by
  refine ⟨rfl, fun _ => rfl, fun _ _ => rfl, ?_⟩
  intro h input chunks
  have key : ∀ (cs : List (List Nat)) (g : StrobeHasher),
      g.initialized = true →
      (List.foldl StrobeHasher.update g cs).initialized = true := by
    intro cs
    induction cs with
    | nil => intro g hg; exact hg
    | cons c cs ih => intro g _; exact ih (g.update c) rfl
  exact key chunks (h.update input) rfl

/-- C7: `finalize` always returns exactly `N` bytes: for the identity
adapter on any state reachable from fresh by a successful absorb sequence
(including the empty one), and for the sha, blake2 and strobe families on
every state whatsoever. -/
theorem finalize_length_eq :
    (∀ (N : Nat) (chunks : List (List Nat)) (t : IdentityHasher N),
        (IdentityHasher.defaultState N).updateAll chunks = some t →
        (IdentityHasher.finalize t).length = N)
    ∧ (∀ (e : List Nat → Nat → Nat) (N : Nat) (s : ShaHasher),
        (ShaHasher.finalize e N s).length = N)
    ∧ (∀ (e : Nat → List Nat → Nat → Nat) (N : Nat) (s : Blake2Hasher N),
        (Blake2Hasher.finalize e s).length = N)
    ∧ (∀ (e : List (List Nat) → Nat → Nat) (N : Nat) (h : StrobeHasher),
        (StrobeHasher.finalize e N h).length = N) := by
  refine ⟨?_, ?_, ?_, ?_⟩
  · intro N chunks t ht
    have key := IdentityHasher.updateAll_length chunks
      (IdentityHasher.defaultState N) t ht
    simpa [IdentityHasher.finalize, IdentityHasher.defaultState] using key
  · intro e N s
    simp [ShaHasher.finalize]
  · intro e N s
    simp [Blake2Hasher.finalize]
  · intro e N h
    simp [StrobeHasher.finalize]

/-- Witness for C7's identity conjunct: after absorbing `[5]` into a fresh
capacity-2 identity hasher the finalize output has length 2. -/
theorem finalize_length_eq_witness :
    (IdentityHasher.finalize (⟨[5, 0], 1⟩ : IdentityHasher 2)).length = 2 :=
  finalize_length_eq.1 2 [[5]] ⟨[5, 0], 1⟩ (by rfl)

/-- C9: the two `From` conversions of `derive_digest!` are mutually inverse:
array to digest to array is the identity, and digest to array to digest is
the identity. -/
theorem digest_array_roundtrip :
    (∀ (N : Nat) (a : GArray N),
        MultihashDigest.toArray (MultihashDigest.ofArray a) = a)
    ∧ (∀ (N : Nat) (d : MultihashDigest N),
        MultihashDigest.ofArray (MultihashDigest.toArray d) = d) :=
  ⟨fun _ _ => rfl, fun _ _ => rfl⟩

/-- An empty first absorb followed by a continuation absorb of `x` reaches
exactly the same strobe hasher state as a single first absorb of `x`: the
continuation merges with the open (empty) operation. -/
theorem strobe_empty_first_absorb (x : List Nat) :
    (StrobeHasher.defaultState.update []).update x
      = StrobeHasher.defaultState.update x := by
  rw [StrobeHasher.update_then_update_strobe]
  rfl

/-- C10 (amended): for the strobe adapter an empty `update` is not a no-op
on the hasher state — it performs an absorb operation (opening an `AD`
operation on the sponge) and sets `initialized` to `true`, so later updates
are framed as continuation chunks.  However, by the primitive's streaming
semantics a continuation merges with the open (empty) operation, so an
instance that received an empty update followed by input bytes has exactly
the same state — and hence finalizes to the same digest — as a fresh
instance that absorbed those bytes directly.  Every other adapter leaves
its state unchanged by an empty update (for the identity adapter, on any
state whose cursor is within the buffer, as in every reachable state). -/
theorem strobe_empty_update_amended :
    (StrobeHasher.defaultState.update [] ≠ StrobeHasher.defaultState)
    ∧ ((StrobeHasher.defaultState.update []).initialized = true)
    ∧ (∀ x : List Nat,
        (StrobeHasher.defaultState.update []).update x
          = StrobeHasher.defaultState.update x)
    ∧ (∀ (N : Nat) (s : IdentityHasher N),
        s.i ≤ s.bytes.length → s.update [] = some s)
    ∧ (∀ s : ShaHasher, s.update [] = s)
    ∧ (∀ (N : Nat) (s : Blake2Hasher N), s.update [] = s) := by
  refine ⟨by decide, rfl, strobe_empty_first_absorb, ?_, ?_, ?_⟩
  · intro N s hs
    unfold IdentityHasher.update
    rw [if_pos (by simpa using hs)]
    simp [copySlice_nil]
  · intro s
    simp [ShaHasher.update]
  · intro N s
    simp [Blake2Hasher.update]

/-- Witness for C10's identity conjunct at the fresh capacity-2 state. -/
theorem strobe_empty_update_amended_witness :
    IdentityHasher.update (IdentityHasher.defaultState 2) []
      = some (IdentityHasher.defaultState 2) :=
  strobe_empty_update_amended.2.2.2.1 2 (IdentityHasher.defaultState 2)
    (by decide)

/-- C10 (counterexample to the original claim): there is no extraction
function, output length, or followup input for which the digest after an
empty update followed by that input differs from the digest of a fresh
instance absorbing the same input directly — the two hasher states
coincide, so the claimed digest difference cannot occur. -/
theorem strobe_empty_update_no_digest_difference :
    ¬ ∃ (e : List (List Nat) → Nat → Nat) (N : Nat) (x : List Nat),
      StrobeHasher.finalize e N
          ((StrobeHasher.defaultState.update []).update x)
        ≠ StrobeHasher.finalize e N (StrobeHasher.defaultState.update x) := by
  rintro ⟨e, N, x, hx⟩
  exact hx (congrArg (StrobeHasher.finalize e N) (strobe_empty_first_absorb x))
